import Mathlib

/-!
# kvs-sample: the checksum classifier and the store update of its caller

A shallow embedding of `src/main.go`:

* `FileChecksum`, `CacheMiss`, `CacheMissReason`, `CacheMiss.Reason` (lines 105-122, 172-177);
* `Extract` (lines 67-103), split into the lookups of one loop iteration (`lookupStored`,
  lines 72-94) and the comparison that follows them (`classify`, lines 96-100);
* the miss loop of `main` (`missLoop`, lines 44-58).

Two libraries are called by this code and are not part of the repository:

* goleveldb (`db.Has`, `db.Get`, `db.Put`) is modelled by `DB`: the stored records plus,
  for every key, the failure (if any) that each operation reports on it;
* encoding/json is modelled by `Unmarshal`, which follows the top of `json.Unmarshal`
  (well-formedness scan, then the check of the destination pointer, then the decoder), with
  the grammar-dependent parts (`Marshal`, `checkValid`, the decoder `value`) taken as the
  parameter `Json`; `goJson` is the instance on which concrete stores are evaluated.

Go `string` values are modelled by `String` (so only valid UTF-8 text), `[]byte` by
`List UInt8`, `int64` by `Int` (the program only compares and prints `ModTime`), a
`*FileChecksum` by `Option FileChecksum` (`none` is the nil pointer) and a Go `error` by
`Option Error` (`none` is nil).
-/

namespace KvsSample

/-- A Go byte slice. -/
abbrev Bytes := List UInt8

/-- The conversion `[]byte(s)` of a Go string: its UTF-8 bytes. -/
def bytesOf (s : String) : Bytes := s.data.flatMap String.utf8EncodeChar

/-- FileChecksum is summary of file (main.go:173-177). -/
structure FileChecksum where
  Path : String
  Checksum : String
  ModTime : Int
  deriving DecidableEq, Repr

/-- The type `CacheMissReason` with its two constants (main.go:105-110). -/
inductive CacheMissReason where
  | PassedNewer
  | StoredNewer
  deriving DecidableEq, Repr

/-- The struct `CacheMiss` (main.go:112-115). -/
structure CacheMiss where
  PassedValue : FileChecksum
  StoredValue : FileChecksum
  deriving DecidableEq, Repr

/-- The method `Reason` (main.go:117-122). -/
def CacheMiss.Reason (miss : CacheMiss) : CacheMissReason :=
  if miss.PassedValue.ModTime < miss.StoredValue.ModTime then
    CacheMissReason.StoredNewer
  else
    CacheMissReason.PassedNewer

/-- The error values the program can meet, by dynamic type: what the store reports
(`ErrNotFound`, or any other failure, with its message) and the three errors of
`json.Unmarshal`. -/
inductive Error where
  | ErrNotFound
  | storeFailure (msg : String)
  | SyntaxError
  | InvalidUnmarshalError (typ : String)
  | UnmarshalTypeError
  deriving DecidableEq, Repr

/-! ## encoding/json -/

/-- The parts of encoding/json that depend on the JSON grammar.
`Marshal v` is `json.Marshal(v)` for a `FileChecksum`; `checkValid data` is the
well-formedness scan that `json.Unmarshal` runs first; `value data v` is the decoder proper,
run on a well-formed document with the struct `v` that the (non-nil) destination points to,
giving the struct as it is left and the error reported. -/
structure Json where
  Marshal : FileChecksum → Bytes × Option Error
  checkValid : Bytes → Option Error
  value : Bytes → FileChecksum → FileChecksum × Option Error

/-- The call `json.Unmarshal(data, v)` for a destination `v` of type `*FileChecksum`:
the document is scanned first; then a nil destination is refused with an
`InvalidUnmarshalError` naming its type; otherwise the decoder fills the struct pointed to.
The result is the destination after the call and the error returned. -/
def Unmarshal (js : Json) (data : Bytes) (v : Option FileChecksum) :
    Option FileChecksum × Option Error :=
  match js.checkValid data with
  | some err => (v, some err)
  | none =>
    match v with
    | none => (none, some (Error.InvalidUnmarshalError "*main.FileChecksum"))
    | some x => ((some (js.value data x).1), (js.value data x).2)

/-! ## goleveldb -/

/-- The store behind the global `db`: `data` holds the record of each key, the three
fault maps give the error each operation reports on a key (`none`: it works), and `puts`
lists the writes issued so far, oldest first. -/
structure DB where
  data : Bytes → Option Bytes
  hasFault : Bytes → Option Error
  getFault : Bytes → Option Error
  putFault : Bytes → Option Error
  puts : List (Bytes × Bytes)

/-- The call `db.Has(key, nil)`. -/
def DB.Has (db : DB) (key : Bytes) : Bool × Option Error :=
  match db.hasFault key with
  | some err => (false, some err)
  | none => ((db.data key).isSome, none)

/-- The call `db.Get(key, nil)`. -/
def DB.Get (db : DB) (key : Bytes) : Bytes × Option Error :=
  match db.getFault key with
  | some err => ([], some err)
  | none =>
    match db.data key with
    | some value => (value, none)
    | none => ([], some Error.ErrNotFound)

/-- The call `db.Put(key, value, nil)`: the store after it and the error returned. -/
def DB.Put (db : DB) (key value : Bytes) : DB × Option Error :=
  match db.putFault key with
  | some err => ({ db with puts := db.puts ++ [(key, value)] }, some err)
  | none =>
    ({ db with
        data := fun k => if k = key then some value else db.data k
        puts := db.puts ++ [(key, value)] }, none)

/-! ## Extract -/

/-- Lines 72-94 of the loop body of `Extract`, for one `file`. `Except.error err` is one
of the three `errs = append(errs, err); continue` exits; `Except.ok stored` is the arrival
at line 96 with that value of the pointer `stored`. -/
def lookupStored (js : Json) (db : DB) (file : FileChecksum) :
    Except Error (Option FileChecksum) :=
  let key := bytesOf file.Path
  match db.Has key with
  | (_, some err) => Except.error err
  | (exist, none) =>
    let stored : Option FileChecksum := none
    if exist then
      match db.Get key with
      | (_, some err) => Except.error err
      | (value, none) =>
        match Unmarshal js value stored with
        | (_, some err) => Except.error err
        | (stored, none) => Except.ok stored
    else
      Except.ok stored

/-- The three result slices of `Extract`. -/
structure Result where
  hits : List FileChecksum
  miss : List CacheMiss
  errs : List Error
  deriving DecidableEq, Repr

/-- Lines 96-100: the comparison made once `stored` is known, appending to `hits` or `miss`. -/
def classify (acc : Result) (file : FileChecksum) (stored : Option FileChecksum) : Result :=
  match stored with
  | none => { acc with hits := acc.hits ++ [file] }
  | some s =>
    if s.Checksum = file.Checksum then
      { acc with hits := acc.hits ++ [file] }
    else
      { acc with miss := acc.miss ++ [CacheMiss.mk file s] }

/-- One iteration of the loop of `Extract` (lines 71-101). -/
def extractStep (js : Json) (db : DB) (acc : Result) (file : FileChecksum) : Result :=
  match lookupStored js db file with
  | Except.error err => { acc with errs := acc.errs ++ [err] }
  | Except.ok stored => classify acc file stored

/-- The loop of `Extract` started from given slices. -/
def extractFrom (js : Json) (db : DB) (acc : Result) (files : List FileChecksum) : Result :=
  files.foldl (extractStep js db) acc

/-- The function `Extract` (main.go:67-103): three empty slices, then the loop. -/
def Extract (js : Json) (db : DB) (files : List FileChecksum) : Result :=
  extractFrom js db (Result.mk [] [] []) files

/-! ## The miss loop of `main` -/

/-- One iteration of the loop over `misses` in `main` (lines 44-58). The errors of
`json.Marshal` and `db.Put` are only logged, so the loop goes on with the store as the
call left it. -/
def missStep (js : Json) (db : DB) (miss : CacheMiss) : DB :=
  if miss.Reason = CacheMissReason.PassedNewer then
    let key := bytesOf miss.PassedValue.Path
    let value := (js.Marshal miss.PassedValue).1
    (db.Put key value).1
  else
    db

/-- The loop over `misses` in `main` (lines 44-58). -/
def missLoop (js : Json) (db : DB) (misses : List CacheMiss) : DB :=
  misses.foldl (missStep js) db

/-- One run of `main` on the fingerprints `files`: `Extract`, then the miss loop. -/
def run (js : Json) (db : DB) (files : List FileChecksum) : Result × DB :=
  (Extract js db files, missLoop js db (Extract js db files).miss)


/-! ## An instance of encoding/json -/

/-- The sixteen digits of `\u00XX` escapes, as encoding/json writes them. -/
def hexDigit (n : Nat) : UInt8 :=
  if n < 10 then UInt8.ofNat (48 + n) else UInt8.ofNat (87 + n)

/-- The bytes written for one character of a string by encoding/json (HTML escaping on, as
`json.Marshal` has it): a backslash escape for the quote, the backslash and the control
characters, a `\u00XX` escape for `<`, `>`, `&`, a `\u202X` escape for U+2028 and U+2029,
and the UTF-8 bytes of any other character. -/
def encodeChar (c : Char) : Bytes :=
  if c.toNat = 34 then [92, 34]
  else if c.toNat = 92 then [92, 92]
  else if c.toNat = 8 then [92, 98]
  else if c.toNat = 12 then [92, 102]
  else if c.toNat = 10 then [92, 110]
  else if c.toNat = 13 then [92, 114]
  else if c.toNat = 9 then [92, 116]
  else if c.toNat < 32 ∨ c.toNat = 60 ∨ c.toNat = 62 ∨ c.toNat = 38 then
    [92, 117, 48, 48, hexDigit (c.toNat / 16), hexDigit (c.toNat % 16)]
  else if c.toNat = 8232 then [92, 117, 50, 48, 50, 56]
  else if c.toNat = 8233 then [92, 117, 50, 48, 50, 57]
  else String.utf8EncodeChar c

/-- A Go string as a JSON string literal. -/
def encodeString (s : String) : Bytes :=
  [34] ++ s.data.flatMap encodeChar ++ [34]

/-- An `int64` in decimal, as `strconv.AppendInt(_, n, 10)` writes it. -/
def encodeInt (n : Int) : Bytes :=
  bytesOf (toString n)

/-- The output of `json.Marshal` for a `FileChecksum`: an object with the three exported
fields in declaration order, under their Go names. -/
def marshalFileChecksum (v : FileChecksum) : Bytes :=
  bytesOf "\x7b\"Path\":" ++ encodeString v.Path ++ bytesOf ",\"Checksum\":" ++
    encodeString v.Checksum ++ bytesOf ",\"ModTime\":" ++ encodeInt v.ModTime ++
    bytesOf "\x7d"

/-- JSON white space: space, tab, carriage return, line feed. -/
def isSpace (c : UInt8) : Bool := c = 32 || c = 9 || c = 13 || c = 10

/-- The decimal digits. -/
def isDigit (c : UInt8) : Bool := 48 ≤ c && c ≤ 57

/-- The hexadecimal digits, in either case. -/
def isHex (c : UInt8) : Bool :=
  isDigit c || (97 ≤ c && c ≤ 102) || (65 ≤ c && c ≤ 70)

/-- The input from its first byte that is not white space. -/
def skipSpace : Bytes → Bytes
  | [] => []
  | c :: rest => if isSpace c then skipSpace rest else c :: rest

/-- The input from its first byte that is not a digit. -/
def skipDigits : Bytes → Bytes
  | [] => []
  | c :: rest => if isDigit c then skipDigits rest else c :: rest

/-- The rest of the input after a string literal whose opening quote has been read. -/
def scanString : Nat → Bytes → Option Bytes
  | 0, _ => none
  | _, [] => none
  | n + 1, c :: rest =>
    if c = 34 then some rest
    else if c = 92 then
      match rest with
      | 117 :: h1 :: h2 :: h3 :: h4 :: rest4 =>
        if isHex h1 && isHex h2 && isHex h3 && isHex h4 then scanString n rest4 else none
      | e :: rest1 =>
        if e = 98 || e = 102 || e = 110 || e = 114 || e = 116 || e = 92 || e = 47 || e = 34
        then scanString n rest1 else none
      | [] => none
    else if c < 32 then none
    else scanString n rest

/-- The rest of the input after the exponent part of a number, if there is one. -/
def scanExponent (data : Bytes) : Option Bytes :=
  match data with
  | c :: rest =>
    if c = 101 || c = 69 then
      match (match rest with
             | s :: rest1 => if s = 43 || s = 45 then rest1 else rest
             | [] => rest) with
      | d :: rest2 => if isDigit d then some (skipDigits rest2) else none
      | [] => none
    else some data
  | [] => some data

/-- The rest of the input after the fraction and exponent parts of a number. -/
def scanFraction (data : Bytes) : Option Bytes :=
  match data with
  | 46 :: d :: rest => if isDigit d then scanExponent (skipDigits rest) else none
  | 46 :: [] => none
  | _ => scanExponent data

/-- The rest of the input after a number literal. -/
def scanNumber (data : Bytes) : Option Bytes :=
  match (match data with
         | 45 :: rest => rest
         | _ => data) with
  | 48 :: rest => scanFraction rest
  | d :: rest => if isDigit d then scanFraction (skipDigits rest) else none
  | [] => none

/-- The rest of the input after a given sequence of bytes. -/
def scanLiteral : Bytes → Bytes → Option Bytes
  | [], data => some data
  | _ :: _, [] => none
  | l :: lit, c :: rest => if c = l then scanLiteral lit rest else none

/-- The rest of the input after a value that is not an array or an object. -/
def scanScalar (data : Bytes) : Option Bytes :=
  match data with
  | [] => none
  | c :: rest =>
    if c = 34 then scanString (rest.length + 1) rest
    else if c = 116 then scanLiteral [114, 117, 101] rest
    else if c = 102 then scanLiteral [97, 108, 115, 101] rest
    else if c = 110 then scanLiteral [117, 108, 108] rest
    else if c = 45 || isDigit c then scanNumber data
    else none

/-- An array or an object that has been opened and not yet closed. -/
inductive Frame where
  | arr
  | obj
  deriving DecidableEq, Repr

/-- The rest of the input after an object key and its colon. -/
def scanKey (data : Bytes) : Option Bytes :=
  match skipSpace data with
  | 34 :: rest =>
    match scanString (rest.length + 1) rest with
    | some rest1 =>
      match skipSpace rest1 with
      | 58 :: rest2 => some rest2
      | _ => none
    | none => none
  | _ => none

/-- Whether the input is well formed from here on. With `expectValue` a value must come
next; without it a value has just ended, and the innermost open array or object says what
may follow. -/
def scanDocument : Nat → Bool → List Frame → Bytes → Bool
  | 0, _, _, _ => false
  | n + 1, true, stack, data =>
    match skipSpace data with
    | 91 :: rest =>
      match skipSpace rest with
      | 93 :: rest1 => scanDocument n false stack rest1
      | _ => scanDocument n true (Frame.arr :: stack) rest
    | 123 :: rest =>
      match skipSpace rest with
      | 125 :: rest1 => scanDocument n false stack rest1
      | _ =>
        match scanKey rest with
        | some rest1 => scanDocument n true (Frame.obj :: stack) rest1
        | none => false
    | other =>
      match scanScalar other with
      | some rest => scanDocument n false stack rest
      | none => false
  | n + 1, false, stack, data =>
    match stack, skipSpace data with
    | [], [] => true
    | [], _ :: _ => false
    | Frame.arr :: _, 44 :: rest => scanDocument n true stack rest
    | Frame.arr :: below, 93 :: rest => scanDocument n false below rest
    | Frame.obj :: _, 44 :: rest =>
      match scanKey rest with
      | some rest1 => scanDocument n true stack rest1
      | none => false
    | Frame.obj :: below, 125 :: rest => scanDocument n false below rest
    | _, _ => false

/-- The scan `checkValid` of encoding/json (without its limit on the nesting depth). -/
def checkValid (data : Bytes) : Option Error :=
  if scanDocument (data.length + 2) true [] data then none else some Error.SyntaxError

/-- The instance of `Json` used to run the program on concrete stores: the encoder and the
scan above, and a decoder that leaves the struct as it is and never fails, so that every
error met on a concrete store comes from the scan or from the check of the destination.
The theorems about `Extract` and the miss loop are proved for every `Json`. -/
def goJson : Json where
  Marshal := fun v => (marshalFileChecksum v, none)
  checkValid := checkValid
  value := fun _ v => (v, none)

/-! ## Concrete stores and fingerprints -/

/-- A store that holds the given records (the first record of a key counts) and on which
every operation works. -/
def storeOf (records : List (Bytes × Bytes)) : DB where
  data := fun k => (records.find? (fun r => r.1 = k)).map Prod.snd
  hasFault := fun _ => none
  getFault := fun _ => none
  putFault := fun _ => none
  puts := []

/-- Componentwise concatenation of two results. -/
def Result.append (a b : Result) : Result :=
  { hits := a.hits ++ b.hits, miss := a.miss ++ b.miss, errs := a.errs ++ b.errs }

/-- The fingerprint stored in the scenarios of the specification. -/
def storedA : FileChecksum := FileChecksum.mk "a.txt" "x" 100

/-- A fresh fingerprint with the stored checksum and a later timestamp. -/
def freshSame : FileChecksum := FileChecksum.mk "a.txt" "x" 200

/-- A fresh fingerprint with another checksum and a later timestamp. -/
def freshLater : FileChecksum := FileChecksum.mk "a.txt" "y" 200

/-- A fresh fingerprint with another checksum and an earlier timestamp. -/
def freshEarlier : FileChecksum := FileChecksum.mk "a.txt" "y" 50

/-- A fresh fingerprint of a second file. -/
def freshB : FileChecksum := FileChecksum.mk "b.txt" "z" 70

/-- The store with no record. -/
def emptyStore : DB := storeOf []

/-- The store whose one record is `storedA` under its path, written as `main` writes it. -/
def storeA : DB := storeOf [(bytesOf "a.txt", marshalFileChecksum storedA)]

/-- The store whose one record, under `a.txt`, is not a JSON document. -/
def garbledStore : DB := storeOf [(bytesOf "a.txt", bytesOf "not json")]

/-- The store `storeA` on which `Has` fails for the key `b.txt`. -/
def failingStore : DB :=
  { storeA with
    hasFault := fun k => if k = bytesOf "b.txt" then some (Error.storeFailure "i/o") else none }

/-- The store `storeA` on which `Get` fails for the key `a.txt`. -/
def unreadableStore : DB :=
  { storeA with
    getFault := fun k => if k = bytesOf "a.txt" then some (Error.storeFailure "i/o") else none }

/-- The miss of scenario C: the passed value is the newer one. -/
def missLater : CacheMiss := CacheMiss.mk freshLater storedA

/-- The miss of scenario D: the stored value is the newer one. -/
def missEarlier : CacheMiss := CacheMiss.mk freshEarlier storedA

/-- A `PassedNewer` miss for `b.txt`. -/
def missB : CacheMiss := CacheMiss.mk freshB (FileChecksum.mk "b.txt" "w" 60)

/-! ## The loop of `Extract`, element by element -/

theorem Result.append_empty (a : Result) : a.append (Result.mk [] [] []) = a := by
  cases a; simp [Result.append]

theorem Result.append_assoc (a b c : Result) :
    (a.append b).append c = a.append (b.append c) := by
  simp [Result.append, List.append_assoc]

/-- An iteration appends to the slices it is given what it appends to empty ones. -/
theorem extractStep_append (js : Json) (db : DB) (acc : Result) (file : FileChecksum) :
    extractStep js db acc file = acc.append (extractStep js db (Result.mk [] [] []) file) := by
  unfold extractStep
  cases lookupStored js db file with
  | error err => simp [Result.append]
  | ok stored =>
    cases stored with
    | none => simp [classify, Result.append]
    | some s =>
      by_cases hc : s.Checksum = file.Checksum <;> simp [classify, Result.append, hc]

/-- The loop appends to the slices it is given what `Extract` returns. -/
theorem extractFrom_eq_append (js : Json) (db : DB) (files : List FileChecksum) :
    ∀ acc : Result, extractFrom js db acc files = acc.append (Extract js db files) := by
  induction files with
  | nil => intro acc; simp [Extract, extractFrom, Result.append_empty]
  | cons f fs ih =>
    intro acc
    have h1 : extractFrom js db acc (f :: fs) = extractFrom js db (extractStep js db acc f) fs :=
      rfl
    have h2 : Extract js db (f :: fs) =
        extractFrom js db (extractStep js db (Result.mk [] [] []) f) fs := rfl
    rw [h1, h2, ih, ih, extractStep_append js db acc f, Result.append_assoc]

theorem Extract_nil (js : Json) (db : DB) : Extract js db [] = Result.mk [] [] [] := rfl

theorem Extract_cons (js : Json) (db : DB) (f : FileChecksum) (fs : List FileChecksum) :
    Extract js db (f :: fs) =
      (extractStep js db (Result.mk [] [] []) f).append (Extract js db fs) := by
  have h : Extract js db (f :: fs) =
      extractFrom js db (extractStep js db (Result.mk [] [] []) f) fs := rfl
  rw [h, extractFrom_eq_append]

theorem Extract_append (js : Json) (db : DB) (xs ys : List FileChecksum) :
    Extract js db (xs ++ ys) = (Extract js db xs).append (Extract js db ys) := by
  have h : Extract js db (xs ++ ys) = extractFrom js db (Extract js db xs) ys := by
    simp [Extract, extractFrom, List.foldl_append]
  rw [h, extractFrom_eq_append]

/-- The result for a list is the result for what precedes an element, then what the
iteration of that element appends, then the result for what follows it. -/
theorem Extract_split (js : Json) (db : DB) (pre post : List FileChecksum) (f : FileChecksum) :
    Extract js db (pre ++ f :: post) =
      (Extract js db pre).append
        ((extractStep js db (Result.mk [] [] []) f).append (Extract js db post)) := by
  rw [Extract_append, Extract_cons]

/-! ## What one iteration does -/

/-- With no record under the key and a working `Has`, line 96 is reached with `stored` nil. -/
theorem lookupStored_of_absent (js : Json) (db : DB) (file : FileChecksum)
    (h : db.Has (bytesOf file.Path) = (false, none)) :
    lookupStored js db file = Except.ok none := by
  simp [lookupStored, h]

/-- A failing `Has` ends the iteration with its error. -/
theorem lookupStored_of_has_error (js : Json) (db : DB) (file : FileChecksum) (exist : Bool)
    (err : Error) (h : db.Has (bytesOf file.Path) = (exist, some err)) :
    lookupStored js db file = Except.error err := by
  simp [lookupStored, h]

/-- A failing `Get` after a successful `Has` ends the iteration with its error. -/
theorem lookupStored_of_get_error (js : Json) (db : DB) (file : FileChecksum) (value : Bytes)
    (err : Error) (hHas : db.Has (bytesOf file.Path) = (true, none))
    (hGet : db.Get (bytesOf file.Path) = (value, some err)) :
    lookupStored js db file = Except.error err := by
  simp [lookupStored, hHas, hGet]

/-- A failing `Unmarshal` after successful reads ends the iteration with its error. -/
theorem lookupStored_of_decode_error (js : Json) (db : DB) (file : FileChecksum) (value : Bytes)
    (err : Error) (hHas : db.Has (bytesOf file.Path) = (true, none))
    (hGet : db.Get (bytesOf file.Path) = (value, none))
    (hDec : (Unmarshal js value none).2 = some err) :
    lookupStored js db file = Except.error err := by
  simp only [lookupStored, hHas, hGet]
  generalize Unmarshal js value none = r at hDec
  obtain ⟨d, e⟩ := r
  simp only at hDec
  simp [hDec]

/-- `Unmarshal` returns an error for the nil destination, whatever the bytes. -/
theorem Unmarshal_nil (js : Json) (data : Bytes) :
    ∃ err, Unmarshal js data none = (none, some err) := by
  unfold Unmarshal
  cases js.checkValid data with
  | some err => exact ⟨err, rfl⟩
  | none => exact ⟨_, rfl⟩

/-- Line 96 is only reached with `stored` nil. -/
theorem lookupStored_ok_nil (js : Json) (db : DB) (file : FileChecksum)
    (stored : Option FileChecksum) (h : lookupStored js db file = Except.ok stored) :
    stored = none := by
  rcases hH : db.Has (bytesOf file.Path) with ⟨exist, eh⟩
  cases eh with
  | some err => simp [lookupStored, hH] at h
  | none =>
    cases exist with
    | false =>
      rw [lookupStored_of_absent js db file hH] at h
      cases h; rfl
    | true =>
      rcases hG : db.Get (bytesOf file.Path) with ⟨value, eg⟩
      cases eg with
      | some err => simp [lookupStored, hH, hG] at h
      | none =>
        obtain ⟨err, hu⟩ := Unmarshal_nil js value
        simp [lookupStored, hH, hG, hu] at h

/-- The miss list of `Extract` is empty for every input and every store. -/
theorem Extract_miss_nil (js : Json) (db : DB) (files : List FileChecksum) :
    (Extract js db files).miss = [] := by
  induction files with
  | nil => rfl
  | cons f fs ih =>
    rw [Extract_cons]
    simp only [Result.append, ih, List.append_nil]
    cases h : lookupStored js db f with
    | error err => simp [extractStep, h]
    | ok stored =>
      have hs := lookupStored_ok_nil js db f stored h
      subst hs
      simp [extractStep, h, classify]

/-- An element whose iteration ends in an error adds that error to `errs`, in its place,
and nothing to `hits` or `miss`. -/
theorem Extract_split_of_error (js : Json) (db : DB) (pre post : List FileChecksum)
    (f : FileChecksum) (err : Error) (h : lookupStored js db f = Except.error err) :
    Extract js db (pre ++ f :: post) =
      { hits := (Extract js db pre).hits ++ (Extract js db post).hits
        miss := (Extract js db pre).miss ++ (Extract js db post).miss
        errs := (Extract js db pre).errs ++ err :: (Extract js db post).errs } := by
  rw [Extract_split]
  simp [extractStep, h, Result.append]

/-! ## The claims -/

/-- C1. An element whose key lookup succeeds and reports no record (`db.Has` returns
`false, nil`) is appended unchanged to `hits`, in its place among the hits of the elements
before and after it, and adds nothing to `miss` or `errs`. -/
theorem extract_absent_hit (js : Json) (db : DB) (pre post : List FileChecksum)
    (f : FileChecksum) (h : db.Has (bytesOf f.Path) = (false, none)) :
    Extract js db (pre ++ f :: post) =
      { hits := (Extract js db pre).hits ++ f :: (Extract js db post).hits
        miss := (Extract js db pre).miss ++ (Extract js db post).miss
        errs := (Extract js db pre).errs ++ (Extract js db post).errs } := by
  rw [Extract_split]
  simp [extractStep, lookupStored_of_absent js db f h, classify, Result.append]

/-- Scenario A of the specification, between two other files, on the empty store. -/
theorem extract_absent_hit_witness :
    emptyStore.Has (bytesOf storedA.Path) = (false, none) ∧
    Extract goJson emptyStore ([freshB] ++ storedA :: [freshB]) =
      { hits := (Extract goJson emptyStore [freshB]).hits ++
          storedA :: (Extract goJson emptyStore [freshB]).hits
        miss := (Extract goJson emptyStore [freshB]).miss ++
          (Extract goJson emptyStore [freshB]).miss
        errs := (Extract goJson emptyStore [freshB]).errs ++
          (Extract goJson emptyStore [freshB]).errs } :=
  ⟨by decide, extract_absent_hit goJson emptyStore [freshB] [freshB] storedA (by decide)⟩

/-- C4. `Reason` is `StoredNewer` exactly when the passed timestamp is smaller than the
stored one and `PassedNewer` exactly when it is greater or equal; equal timestamps give
`PassedNewer`; paths and checksums play no part. -/
theorem reason_spec (m : CacheMiss) :
    (m.Reason = CacheMissReason.StoredNewer ↔ m.PassedValue.ModTime < m.StoredValue.ModTime) ∧
    (m.Reason = CacheMissReason.PassedNewer ↔ m.PassedValue.ModTime ≥ m.StoredValue.ModTime) ∧
    (m.PassedValue.ModTime = m.StoredValue.ModTime → m.Reason = CacheMissReason.PassedNewer) ∧
    (∀ m2 : CacheMiss, m2.PassedValue.ModTime = m.PassedValue.ModTime →
      m2.StoredValue.ModTime = m.StoredValue.ModTime → m2.Reason = m.Reason) := by
  refine ⟨?_, ?_, ?_, ?_⟩
  · unfold CacheMiss.Reason
    split <;> simp_all
  · unfold CacheMiss.Reason
    split
    · simp_all
    · simp only [true_iff]; omega
  · intro h
    simp [CacheMiss.Reason, h]
  · intro m2 h1 h2
    simp [CacheMiss.Reason, h1, h2]

/-- What the iteration of one element appends: the element to `hits`, or one miss that
holds it to `miss`, or one error to `errs`. -/
theorem extractStep_cases (js : Json) (db : DB) (f : FileChecksum) :
    extractStep js db (Result.mk [] [] []) f = Result.mk [f] [] [] ∨
    (∃ s, extractStep js db (Result.mk [] [] []) f = Result.mk [] [CacheMiss.mk f s] []) ∨
    (∃ err, extractStep js db (Result.mk [] [] []) f = Result.mk [] [] [err]) := by
  cases h : lookupStored js db f with
  | error err => exact Or.inr (Or.inr ⟨err, by simp [extractStep, h]⟩)
  | ok stored =>
    cases stored with
    | none => exact Or.inl (by simp [extractStep, h, classify])
    | some s =>
      by_cases hc : s.Checksum = f.Checksum
      · exact Or.inl (by simp [extractStep, h, classify, hc])
      · exact Or.inr (Or.inl ⟨s, by simp [extractStep, h, classify, hc]⟩)

/-- C5. Partition: the three slices together have as many elements as the input, every hit
is an input element, the passed value of every miss is an input element, and each input
element accounts for exactly one entry: the result is that of the elements before it, then
the element in `hits` or one miss holding it in `miss` or one error in `errs`, then the
result of the elements after it. -/
theorem extract_partition (js : Json) (db : DB) (files : List FileChecksum) :
    (Extract js db files).hits.length + (Extract js db files).miss.length +
        (Extract js db files).errs.length = files.length ∧
    (∀ hit ∈ (Extract js db files).hits, hit ∈ files) ∧
    (∀ miss ∈ (Extract js db files).miss, miss.PassedValue ∈ files) ∧
    (∀ (pre post : List FileChecksum) (f : FileChecksum), files = pre ++ f :: post →
      ∃ r : Result,
        (r = Result.mk [f] [] [] ∨ (∃ s, r = Result.mk [] [CacheMiss.mk f s] []) ∨
          (∃ err, r = Result.mk [] [] [err])) ∧
        Extract js db files =
          (Extract js db pre).append (r.append (Extract js db post))) := by
  refine ⟨?_, ?_, ?_, ?_⟩
  · induction files with
    | nil => simp [Extract_nil]
    | cons f fs ih =>
      rw [Extract_cons]
      rcases extractStep_cases js db f with h | ⟨s, h⟩ | ⟨err, h⟩ <;>
        simp only [h, Result.append, List.length_append, List.length_cons, List.length_nil] <;>
        omega
  · induction files with
    | nil => simp [Extract_nil]
    | cons f fs ih =>
      rw [Extract_cons]
      intro hit hh
      rcases extractStep_cases js db f with h | ⟨s, h⟩ | ⟨err, h⟩ <;>
        simp only [h, Result.append, List.nil_append, List.cons_append, List.mem_cons] at hh
      · rcases hh with rfl | hh
        · exact List.mem_cons_self _ _
        · exact List.mem_cons_of_mem _ (ih hit hh)
      · exact List.mem_cons_of_mem _ (ih hit hh)
      · exact List.mem_cons_of_mem _ (ih hit hh)
  · induction files with
    | nil => simp [Extract_nil]
    | cons f fs ih =>
      rw [Extract_cons]
      intro miss hm
      rcases extractStep_cases js db f with h | ⟨s, h⟩ | ⟨err, h⟩ <;>
        simp only [h, Result.append, List.nil_append, List.cons_append, List.mem_cons] at hm
      · exact List.mem_cons_of_mem _ (ih miss hm)
      · rcases hm with rfl | hm
        · exact List.mem_cons_self _ _
        · exact List.mem_cons_of_mem _ (ih miss hm)
      · exact List.mem_cons_of_mem _ (ih miss hm)
  · intro pre post f hf
    subst hf
    exact ⟨extractStep js db (Result.mk [] [] []) f, extractStep_cases js db f,
      Extract_split js db pre post f⟩

/-- C6. An element whose lookup fails with an I/O error (`db.Has` returns an error, or
`db.Get` does after `Has` reported the key present) adds that one error to `errs`, in its
place, and nothing to `hits` or `miss`; the other elements are classified as they are in
the list without it. -/
theorem extract_lookup_error (js : Json) (db : DB) (pre post : List FileChecksum)
    (f : FileChecksum) (err : Error)
    (h : (∃ exist, db.Has (bytesOf f.Path) = (exist, some err)) ∨
      (db.Has (bytesOf f.Path) = (true, none) ∧
        ∃ value, db.Get (bytesOf f.Path) = (value, some err))) :
    (Extract js db (pre ++ f :: post)).hits = (Extract js db (pre ++ post)).hits ∧
    (Extract js db (pre ++ f :: post)).miss = (Extract js db (pre ++ post)).miss ∧
    (Extract js db (pre ++ f :: post)).errs =
      (Extract js db pre).errs ++ err :: (Extract js db post).errs ∧
    (Extract js db (pre ++ post)).errs = (Extract js db pre).errs ++ (Extract js db post).errs ∧
    (Extract js db (pre ++ post)).hits = (Extract js db pre).hits ++ (Extract js db post).hits ∧
    (Extract js db (pre ++ post)).miss =
      (Extract js db pre).miss ++ (Extract js db post).miss := by
  have hl : lookupStored js db f = Except.error err := by
    rcases h with ⟨exist, hHas⟩ | ⟨hHas, value, hGet⟩
    · exact lookupStored_of_has_error js db f exist err hHas
    · exact lookupStored_of_get_error js db f value err hHas hGet
  rw [Extract_split, Extract_append]
  simp [extractStep, hl, Result.append]

/-- Scenario E of the specification (`Has` fails for `b.txt`, listed after `a.txt`), and a
store on which `Get` fails for `a.txt` after `Has` reported it present. -/
theorem extract_lookup_error_witness :
    failingStore.Has (bytesOf freshB.Path) = (false, some (Error.storeFailure "i/o")) ∧
    (Extract goJson failingStore ([freshSame] ++ freshB :: [])).errs =
      (Extract goJson failingStore [freshSame]).errs ++
        Error.storeFailure "i/o" :: (Extract goJson failingStore []).errs ∧
    unreadableStore.Has (bytesOf freshSame.Path) = (true, none) ∧
    unreadableStore.Get (bytesOf freshSame.Path) = ([], some (Error.storeFailure "i/o")) ∧
    (Extract goJson unreadableStore ([freshB] ++ freshSame :: [freshB])).errs =
      (Extract goJson unreadableStore [freshB]).errs ++
        Error.storeFailure "i/o" :: (Extract goJson unreadableStore [freshB]).errs :=
  ⟨by decide,
    (extract_lookup_error goJson failingStore [freshSame] [] freshB (Error.storeFailure "i/o")
      (Or.inl ⟨false, by decide⟩)).2.2.1,
    by decide, by decide,
    (extract_lookup_error goJson unreadableStore [freshB] [freshB] freshSame
      (Error.storeFailure "i/o") (Or.inr ⟨by decide, [], by decide⟩)).2.2.1⟩

/-- C7, as the code has it. An element whose key exists and is read successfully, and for
whose bytes the call of `json.Unmarshal` on line 89 returns an error, adds that error to
`errs`, in its place, and nothing to `hits` or `miss`. -/
theorem extract_decode_error (js : Json) (db : DB) (pre post : List FileChecksum)
    (f : FileChecksum) (value : Bytes) (err : Error)
    (hHas : db.Has (bytesOf f.Path) = (true, none))
    (hGet : db.Get (bytesOf f.Path) = (value, none))
    (hDec : (Unmarshal js value none).2 = some err) :
    Extract js db (pre ++ f :: post) =
      { hits := (Extract js db pre).hits ++ (Extract js db post).hits
        miss := (Extract js db pre).miss ++ (Extract js db post).miss
        errs := (Extract js db pre).errs ++ err :: (Extract js db post).errs } := by
  exact Extract_split_of_error js db pre post f err
    (lookupStored_of_decode_error js db f value err hHas hGet hDec)

/-- The garbled record of `a.txt`, between two files that have no record. -/
theorem extract_decode_error_witness :
    garbledStore.Has (bytesOf storedA.Path) = (true, none) ∧
    garbledStore.Get (bytesOf storedA.Path) = (bytesOf "not json", none) ∧
    (Unmarshal goJson (bytesOf "not json") none).2 = some Error.SyntaxError ∧
    Extract goJson garbledStore ([freshB] ++ storedA :: [freshB]) =
      { hits := (Extract goJson garbledStore [freshB]).hits ++
          (Extract goJson garbledStore [freshB]).hits
        miss := (Extract goJson garbledStore [freshB]).miss ++
          (Extract goJson garbledStore [freshB]).miss
        errs := (Extract goJson garbledStore [freshB]).errs ++
          Error.SyntaxError :: (Extract goJson garbledStore [freshB]).errs } :=
  ⟨by decide, by decide, by decide,
    extract_decode_error goJson garbledStore [freshB] [freshB] storedA (bytesOf "not json")
      Error.SyntaxError (by decide) (by decide) (by decide)⟩

/-- C7, as stated, fails. The key `a.txt` exists and is read successfully, its bytes are
not a JSON document (so `json.Unmarshal` returns an error for them whatever the
destination), and the file is not a hit: `hits` is empty and the error is in `errs`. -/
theorem decode_failure_is_not_a_hit :
    garbledStore.Has (bytesOf storedA.Path) = (true, none) ∧
    garbledStore.Get (bytesOf storedA.Path) = (bytesOf "not json", none) ∧
    (∀ v, (Unmarshal goJson (bytesOf "not json") v).2 = some Error.SyntaxError) ∧
    Extract goJson garbledStore [storedA] = Result.mk [] [] [Error.SyntaxError] := by
  refine ⟨by decide, by decide, ?_, by decide⟩
  intro v
  have hv : goJson.checkValid (bytesOf "not json") = some Error.SyntaxError := by decide
  simp [Unmarshal, hv]

/-- C10. `json.Unmarshal` returns an error for the nil destination whatever the bytes;
hence an element whose key exists and is read successfully adds an error to `errs`,
`stored` is nil whenever line 96 is reached, every element that reaches line 96 is
appended to `hits` (the branch of line 99, which dereferences `stored`, is not taken), and
the returned `miss` is empty. -/
theorem extract_never_misses (js : Json) (db : DB) :
    (∀ data, ∃ err, Unmarshal js data none = (none, some err)) ∧
    (∀ (pre post : List FileChecksum) (f : FileChecksum) (value : Bytes),
      db.Has (bytesOf f.Path) = (true, none) → db.Get (bytesOf f.Path) = (value, none) →
      ∃ err, (Unmarshal js value none).2 = some err ∧
        (Extract js db (pre ++ f :: post)).errs =
          (Extract js db pre).errs ++ err :: (Extract js db post).errs) ∧
    (∀ (file : FileChecksum) (stored : Option FileChecksum),
      lookupStored js db file = Except.ok stored → stored = none) ∧
    (∀ (acc : Result) (file : FileChecksum) (stored : Option FileChecksum),
      lookupStored js db file = Except.ok stored →
      extractStep js db acc file = { acc with hits := acc.hits ++ [file] }) ∧
    (∀ files, (Extract js db files).miss = []) := by
  refine ⟨Unmarshal_nil js, ?_, lookupStored_ok_nil js db, ?_, Extract_miss_nil js db⟩
  · intro pre post f value hHas hGet
    obtain ⟨err, hu⟩ := Unmarshal_nil js value
    have hDec : (Unmarshal js value none).2 = some err := by rw [hu]
    refine ⟨err, hDec, ?_⟩
    rw [Extract_split_of_error js db pre post f err
      (lookupStored_of_decode_error js db f value err hHas hGet hDec)]
  · intro acc file stored h
    have hs := lookupStored_ok_nil js db file stored h
    subst hs
    simp [extractStep, h, classify]

/-! ## The miss loop -/

/-- A write leaves the fault maps of the store as they are. -/
theorem Put_putFault (db : DB) (key value : Bytes) :
    (db.Put key value).1.putFault = db.putFault := by
  unfold DB.Put
  cases db.putFault key <;> rfl

/-- A write is recorded, whether it succeeds or not. -/
theorem Put_puts (db : DB) (key value : Bytes) :
    (db.Put key value).1.puts = db.puts ++ [(key, value)] := by
  unfold DB.Put
  cases db.putFault key <;> rfl

/-- A write leaves the records of the other keys as they are. -/
theorem Put_data_other (db : DB) (key value k : Bytes) (h : k ≠ key) :
    (db.Put key value).1.data k = db.data k := by
  unfold DB.Put
  cases db.putFault key
  · simp [h]
  · rfl

/-- A successful write leaves the value under the key. -/
theorem Put_data_self (db : DB) (key value : Bytes) (h : db.putFault key = none) :
    (db.Put key value).1.data key = some value := by
  simp [DB.Put, h]

/-- An iteration of the miss loop leaves the fault maps of the store as they are. -/
theorem missStep_putFault (js : Json) (db : DB) (m : CacheMiss) :
    (missStep js db m).putFault = db.putFault := by
  unfold missStep
  split
  · exact Put_putFault db _ _
  · rfl

theorem missLoop_putFault (js : Json) (misses : List CacheMiss) :
    ∀ db : DB, (missLoop js db misses).putFault = db.putFault := by
  induction misses with
  | nil => intro db; rfl
  | cons m ms ih =>
    intro db
    have h : missLoop js db (m :: ms) = missLoop js (missStep js db m) ms := rfl
    rw [h, ih, missStep_putFault]

/-- An iteration only touches the key of its miss, and only for a `PassedNewer` miss. -/
theorem missStep_data_other (js : Json) (db : DB) (m : CacheMiss) (k : Bytes)
    (h : m.Reason = CacheMissReason.PassedNewer → bytesOf m.PassedValue.Path ≠ k) :
    (missStep js db m).data k = db.data k := by
  unfold missStep
  by_cases hr : m.Reason = CacheMissReason.PassedNewer
  · have hk : k ≠ bytesOf m.PassedValue.Path := fun e => h hr e.symm
    simp only [hr, if_true]
    exact Put_data_other db _ _ k hk
  · simp [hr]

/-- A successful write of a `PassedNewer` miss leaves its encoding under its key. -/
theorem missStep_data_self (js : Json) (db : DB) (m : CacheMiss)
    (hr : m.Reason = CacheMissReason.PassedNewer)
    (hp : db.putFault (bytesOf m.PassedValue.Path) = none) :
    (missStep js db m).data (bytesOf m.PassedValue.Path) =
      some (js.Marshal m.PassedValue).1 := by
  simp only [missStep, hr, if_true]
  exact Put_data_self db _ _ hp

theorem missLoop_data_other (js : Json) (misses : List CacheMiss) (k : Bytes) :
    ∀ db : DB,
      (∀ m ∈ misses, m.Reason = CacheMissReason.PassedNewer → bytesOf m.PassedValue.Path ≠ k) →
      (missLoop js db misses).data k = db.data k := by
  induction misses with
  | nil => intro db _; rfl
  | cons m ms ih =>
    intro db h
    have hl : missLoop js db (m :: ms) = missLoop js (missStep js db m) ms := rfl
    rw [hl, ih _ (fun m2 hm2 => h m2 (List.mem_cons_of_mem _ hm2)),
      missStep_data_other js db m k (h m (List.mem_cons_self _ _))]

theorem missLoop_append (js : Json) (db : DB) (xs ys : List CacheMiss) :
    missLoop js db (xs ++ ys) = missLoop js (missLoop js db xs) ys := by
  simp [missLoop, List.foldl_append]

/-- The writes an iteration issues: one for a `PassedNewer` miss, none otherwise. -/
theorem missStep_puts (js : Json) (db : DB) (m : CacheMiss) :
    (missStep js db m).puts = db.puts ++
      (if m.Reason = CacheMissReason.PassedNewer then
        [(bytesOf m.PassedValue.Path, (js.Marshal m.PassedValue).1)] else []) := by
  unfold missStep
  by_cases hr : m.Reason = CacheMissReason.PassedNewer
  · simp only [hr, if_true]
    exact Put_puts db _ _
  · simp [hr]

theorem missLoop_puts (js : Json) (misses : List CacheMiss) :
    ∀ db : DB, (missLoop js db misses).puts = db.puts ++
      (misses.filter (fun m => decide (m.Reason = CacheMissReason.PassedNewer))).map
        (fun m => (bytesOf m.PassedValue.Path, (js.Marshal m.PassedValue).1)) := by
  induction misses with
  | nil => intro db; simp [missLoop]
  | cons m ms ih =>
    intro db
    have hl : missLoop js db (m :: ms) = missLoop js (missStep js db m) ms := rfl
    rw [hl, ih, missStep_puts]
    by_cases hr : m.Reason = CacheMissReason.PassedNewer
    · simp [hr]
    · simp [hr]

/-- After the loop, the key of a `PassedNewer` miss that no later `PassedNewer` miss of the
list shares holds the encoding of that miss's passed value, when its write succeeds. -/
theorem missLoop_data_last (js : Json) (db : DB) (pre post : List CacheMiss) (m : CacheMiss)
    (hPut : ∀ k, db.putFault k = none) (hr : m.Reason = CacheMissReason.PassedNewer)
    (hpost : ∀ m2 ∈ post, m2.Reason = CacheMissReason.PassedNewer →
      bytesOf m2.PassedValue.Path ≠ bytesOf m.PassedValue.Path) :
    (missLoop js db (pre ++ m :: post)).data (bytesOf m.PassedValue.Path) =
      some (js.Marshal m.PassedValue).1 := by
  have hl : missLoop js db (pre ++ m :: post) =
      missLoop js (missStep js (missLoop js db pre) m) post := by
    rw [missLoop_append]; rfl
  rw [hl, missLoop_data_other js post _ _ hpost]
  apply missStep_data_self js _ m hr
  rw [missLoop_putFault]
  exact hPut _

/-- The misses that `Extract` returns, which are the lists the loop of `main` is given,
have pairwise distinct keys among their `PassedNewer` misses. -/
theorem Extract_miss_keys_nodup (js : Json) (db : DB) (files : List FileChecksum) :
    (((Extract js db files).miss.filter
      (fun m => decide (m.Reason = CacheMissReason.PassedNewer))).map
        (fun m => bytesOf m.PassedValue.Path)).Nodup := by
  simp [Extract_miss_nil]

/-- C8. Store-update policy of the caller, for a miss list whose `PassedNewer` misses have
pairwise distinct keys (the paths of one traversal are distinct) and a store whose writes
succeed. After the miss loop, the key `PassedValue.Path` of every miss whose `Reason()` is
`PassedNewer` holds the JSON encoding of that miss's `PassedValue`; every key that is not
the path of a `PassedNewer` miss keeps its previous value, so the store differs from the
initial one only at those keys; and the writes issued are, in order, one for each
`PassedNewer` miss, so none is issued for a miss whose `Reason()` is `StoredNewer`. -/
theorem missLoop_store_update (js : Json) (db : DB) (misses : List CacheMiss)
    (hPut : ∀ k, db.putFault k = none)
    (hKeys : ((misses.filter (fun m => decide (m.Reason = CacheMissReason.PassedNewer))).map
      (fun m => bytesOf m.PassedValue.Path)).Nodup) :
    (∀ m ∈ misses, m.Reason = CacheMissReason.PassedNewer →
      (missLoop js db misses).data (bytesOf m.PassedValue.Path) =
        some (js.Marshal m.PassedValue).1) ∧
    (∀ k, (∀ m ∈ misses, m.Reason = CacheMissReason.PassedNewer →
        bytesOf m.PassedValue.Path ≠ k) →
      (missLoop js db misses).data k = db.data k) ∧
    (missLoop js db misses).puts = db.puts ++
      (misses.filter (fun m => decide (m.Reason = CacheMissReason.PassedNewer))).map
        (fun m => (bytesOf m.PassedValue.Path, (js.Marshal m.PassedValue).1)) ∧
    (∀ (db2 : DB) (m : CacheMiss), m.Reason = CacheMissReason.StoredNewer →
      missStep js db2 m = db2) := by
  refine ⟨?_, fun k hk => missLoop_data_other js misses k db hk, missLoop_puts js misses db, ?_⟩
  · intro m hm hr
    obtain ⟨pre, post, hsplit⟩ := List.append_of_mem hm
    subst hsplit
    apply missLoop_data_last js db pre post m hPut hr
    intro m2 hm2 hr2 hEq
    have hf : List.filter (fun m => decide (m.Reason = CacheMissReason.PassedNewer))
        (m :: post) =
        m :: List.filter (fun m => decide (m.Reason = CacheMissReason.PassedNewer)) post := by
      simp [List.filter_cons, hr]
    rw [List.filter_append, hf, List.map_append, List.map_cons] at hKeys
    have hTail := (List.nodup_append.mp hKeys).2.1
    have hNot := (List.nodup_cons.mp hTail).1
    apply hNot
    rw [← hEq]
    exact List.mem_map.mpr ⟨m2, List.mem_filter.mpr ⟨hm2, by simp [hr2]⟩, rfl⟩
  · intro db2 m hr
    simp [missStep, hr]

/-- Scenarios C and D of the specification in one list, with a miss for a second file. -/
theorem missLoop_store_update_witness :
    (∀ k, storeA.putFault k = none) ∧
    (([missLater, missEarlier, missB].filter
      (fun m => decide (m.Reason = CacheMissReason.PassedNewer))).map
        (fun m => bytesOf m.PassedValue.Path)).Nodup ∧
    (missLoop goJson storeA [missLater, missEarlier, missB]).data (bytesOf "a.txt") =
      some (marshalFileChecksum freshLater) ∧
    (missLoop goJson storeA [missLater, missEarlier, missB]).data (bytesOf "b.txt") =
      some (marshalFileChecksum freshB) ∧
    (missLoop goJson storeA [missLater, missEarlier, missB]).data (bytesOf "c.txt") =
      storeA.data (bytesOf "c.txt") ∧
    (missLoop goJson storeA [missLater, missEarlier, missB]).puts =
      [(bytesOf "a.txt", marshalFileChecksum freshLater),
       (bytesOf "b.txt", marshalFileChecksum freshB)] ∧
    missStep goJson storeA missEarlier = storeA :=
  ⟨fun _ => rfl, by decide,
    (missLoop_store_update goJson storeA [missLater, missEarlier, missB] (fun _ => rfl)
      (by decide)).1 missLater (by decide) (by decide),
    (missLoop_store_update goJson storeA [missLater, missEarlier, missB] (fun _ => rfl)
      (by decide)).1 missB (by decide) (by decide),
    (missLoop_store_update goJson storeA [missLater, missEarlier, missB] (fun _ => rfl)
      (by decide)).2.1 (bytesOf "c.txt") (by decide),
    (missLoop_store_update goJson storeA [missLater, missEarlier, missB] (fun _ => rfl)
      (by decide)).2.2.1,
    (missLoop_store_update goJson storeA [missLater, missEarlier, missB] (fun _ => rfl)
      (by decide)).2.2.2 storeA missEarlier (by decide)⟩

/-- C2 on the code. The store holds `storedA` under `a.txt` as `main` writes it, the bytes
are a well-formed document, the fresh fingerprint has the stored checksum, and `Extract`
returns no hit: the one result is the error of `json.Unmarshal` for its nil destination. -/
theorem same_checksum_is_reported_as_error :
    storeA.data (bytesOf freshSame.Path) = some (goJson.Marshal storedA).1 ∧
    goJson.checkValid (goJson.Marshal storedA).1 = none ∧
    freshSame.Checksum = storedA.Checksum ∧
    Extract goJson storeA [freshSame] =
      Result.mk [] [] [Error.InvalidUnmarshalError "*main.FileChecksum"] := by
  refine ⟨by decide, by decide, by decide, by decide⟩

/-- C3 on the code. With the stored record of `a.txt` and a fresh fingerprint of another
checksum, `Extract` returns no miss, for the later and for the earlier timestamp alike: the
one result is the error of `json.Unmarshal` for its nil destination. -/
theorem other_checksum_is_reported_as_error :
    freshLater.Checksum ≠ storedA.Checksum ∧ freshEarlier.Checksum ≠ storedA.Checksum ∧
    Extract goJson storeA [freshLater] =
      Result.mk [] [] [Error.InvalidUnmarshalError "*main.FileChecksum"] ∧
    Extract goJson storeA [freshEarlier] =
      Result.mk [] [] [Error.InvalidUnmarshalError "*main.FileChecksum"] := by
  refine ⟨by decide, by decide, by decide, by decide⟩

/-- C9 on the code. With the stored record of `a.txt`, a run of `main` on the unchanged
file, and one on the changed file, returns an error and issues no write, and `Extract` on
the store the run leaves returns the same error again instead of `hits == files`. -/
theorem second_run_repeats_the_error :
    (run goJson storeA [storedA]).1 =
      Result.mk [] [] [Error.InvalidUnmarshalError "*main.FileChecksum"] ∧
    Extract goJson (run goJson storeA [storedA]).2 [storedA] =
      Result.mk [] [] [Error.InvalidUnmarshalError "*main.FileChecksum"] ∧
    (run goJson storeA [freshLater]).1 =
      Result.mk [] [] [Error.InvalidUnmarshalError "*main.FileChecksum"] ∧
    (run goJson storeA [freshLater]).2.puts = [] ∧
    Extract goJson (run goJson storeA [freshLater]).2 [freshLater] =
      Result.mk [] [] [Error.InvalidUnmarshalError "*main.FileChecksum"] := by
  refine ⟨by decide, by decide, by decide, by decide, by decide⟩

end KvsSample
